import Mathlib

/-!
Verification of the API-simulation and call-context-capture engine
(`src/floss/api_hooks.py`, `src/floss/function_argument_getter.py`).

The Python source is shallowly embedded: pure helpers become Lean
functions, the mutable emulator/heap state becomes explicit state
passing, and Python exceptions become explicit outcome constructors.
Python integers are unbounded, so they are modelled as `Nat`/`Int`
without any wrap-around.
-/

namespace Floss

/-! ## Heap simulator (`api_hooks.py`)

`RtlAllocateHeapHook` keeps a mutable cursor `self._heap_addr`
(initially `0x69690000`); `_allocate_mem` rounds the requested size with
`round`, clamps it to `MAX_ALLOCATION_SIZE`, maps `size + 4` bytes at the
cursor, returns the cursor and advances it by the clamped size. -/

/-- `RtlAllocateHeapHook.MAX_ALLOCATION_SIZE = 10 * 1024 * 1024`. -/
def MAX_ALLOCATION_SIZE : Nat := 10 * 1024 * 1024

/-- The initial value of `RtlAllocateHeapHook._heap_addr`. -/
def HEAP_BASE : Nat := 0x69690000

/-- `floss.api_hooks.round`, translated verbatim from the source:
`if i % size == 0: return i` and otherwise `return i + (i - (i % size))`.
Its docstring promises the nearest greater-or-equal multiple of `size`. -/
def round (i size : Nat) : Nat :=
  if i % size = 0 then i else i + (i - i % size)

/-- Modelled from the spec: the rounding the spec (and the source's own
docstring) describe — `i` rounded up to the next multiple of `size`. -/
def roundUpSpec (i size : Nat) : Nat :=
  if i % size = 0 then i else i + (size - i % size)

/-- The effective size `_allocate_mem` uses: `round(size, 0x1000)`
clamped to the 10 MiB ceiling. -/
def clampedSize (s : Nat) : Nat :=
  if round s 0x1000 > MAX_ALLOCATION_SIZE then MAX_ALLOCATION_SIZE else round s 0x1000

/-- `_allocate_mem`: from the cursor and the requested size, the returned
base (the prior cursor) and the new cursor (advanced by the clamped size). -/
def allocate_mem (cursor size : Nat) : Nat × Nat :=
  (cursor, cursor + clampedSize size)

/-- Bytes actually mapped for one request: `addMemoryMap` is given
`"\x00" * (size + 4)`, four bytes more than the cursor advances. -/
def mappedSize (s : Nat) : Nat := clampedSize s + 4

/-- A run of allocations against one allocator-hook instance: the list of
(base, requested size) pairs, threading the cursor through `_allocate_mem`. -/
def allocList : List Nat → Nat → List (Nat × Nat)
  | [], _ => []
  | s :: rest, cursor => (cursor, s) :: allocList rest (cursor + clampedSize s)

/-- The bases handed out for a list of requested sizes. -/
def allocBases (sizes : List Nat) (cursor : Nat) : List Nat :=
  (allocList sizes cursor).map Prod.fst

/-- The cursor after a session's allocations (the heap hook mutates
`self._heap_addr` by the clamped size on every call). -/
def finalCursor (cursor : Nat) (sizes : List Nat) : Nat :=
  sizes.foldl (fun cur s => cur + clampedSize s) cursor

/-- The hook instances live in the module-level list `DEFAULT_HOOKS`, so the
cursor survives from one emulation session to the next: each session's bases,
threading the final cursor of one session into the next. -/
def runSessions : Nat → List (List Nat) → List (List Nat)
  | _, [] => []
  | cursor, ses :: rest =>
      allocBases ses cursor :: runSessions (finalCursor cursor ses) rest

/-! ### Heap lemmas -/

theorem round_ge (i size : Nat) : i ≤ round i size := by
  unfold round
  split
  · exact Nat.le_refl i
  · have h := Nat.mod_le i size
    omega

theorem clampedSize_ge_min (s : Nat) : min s MAX_ALLOCATION_SIZE ≤ clampedSize s := by
  unfold clampedSize
  have h := round_ge s 0x1000
  split
  · exact le_trans (Nat.min_le_right _ _) (Nat.le_refl _)
  · exact le_trans (Nat.min_le_left _ _) h

theorem clampedSize_pos (s : Nat) (hs : 0 < s) : 0 < clampedSize s := by
  unfold clampedSize
  have h := round_ge s 0x1000
  split
  · decide
  · omega

theorem round_of_dvd (s : Nat) (hs : 0x1000 ∣ s) : round s 0x1000 = s := by
  have hmod : s % 0x1000 = 0 := by omega
  unfold round
  simp [hmod]

theorem clampedSize_dvd (s : Nat) (hs : 0x1000 ∣ s) : (0x1000 : Nat) ∣ clampedSize s := by
  unfold clampedSize
  rw [round_of_dvd s hs]
  split
  · decide
  · exact hs

theorem allocList_base_ge (sizes : List Nat) (c : Nat) :
    ∀ p ∈ allocList sizes c, c ≤ p.1 := by
  induction sizes generalizing c with
  | nil => intro p hp; simp [allocList] at hp
  | cons s rest ih =>
      intro p hp
      simp only [allocList, List.mem_cons] at hp
      rcases hp with h | h
      · subst h; exact Nat.le_refl c
      · exact le_trans (Nat.le_add_right c (clampedSize s)) (ih (c + clampedSize s) p h)

theorem allocList_snd_mem (sizes : List Nat) (c : Nat) :
    ∀ p ∈ allocList sizes c, p.2 ∈ sizes := by
  induction sizes generalizing c with
  | nil => intro p hp; simp [allocList] at hp
  | cons s rest ih =>
      intro p hp
      simp only [allocList, List.mem_cons] at hp
      rcases hp with h | h
      · subst h; simp
      · exact List.mem_cons_of_mem s (ih (c + clampedSize s) p h)

theorem allocList_pairwise (sizes : List Nat) (c : Nat) :
    (allocList sizes c).Pairwise (fun p q => p.1 + clampedSize p.2 ≤ q.1) := by
  induction sizes generalizing c with
  | nil => exact List.Pairwise.nil
  | cons s rest ih =>
      refine List.Pairwise.cons ?_ (ih (c + clampedSize s))
      intro q hq
      exact allocList_base_ge rest (c + clampedSize s) q hq

theorem allocList_dvd (sizes : List Nat) :
    ∀ c, (∀ s ∈ sizes, (0x1000 : Nat) ∣ s) → (0x1000 : Nat) ∣ c →
      ∀ p ∈ allocList sizes c, (0x1000 : Nat) ∣ p.1 := by
  induction sizes with
  | nil => intro c _ _ p hp; simp [allocList] at hp
  | cons s rest ih =>
      intro c hsizes hc p hp
      simp only [allocList, List.mem_cons] at hp
      rcases hp with h | h
      · subst h; exact hc
      · exact ih (c + clampedSize s)
          (fun x hx => hsizes x (List.mem_cons_of_mem s hx))
          (Nat.dvd_add hc (clampedSize_dvd s (hsizes s (List.mem_cons_self s rest)))) p h

/-! ## Claims about the heap simulator -/

/-- Claim C2 (code_bug): the claim says a requested size is rounded up to the
next multiple of 4096 and clamped to 10 MiB, and that the cursor advances by
exactly that rounded-and-clamped size. The source's `round` contradicts its
own docstring: `round(0x1800, 0x1000) = 0x2800`, which is not a multiple of
`0x1000` (the docstring and spec require `0x2000`), and `round(1, 0x1000) = 1`,
so an allocation of one byte advances the cursor by one byte, not 4096. -/
theorem C2_round_code_bug :
    round 0x1800 0x1000 = 0x2800 ∧
    ¬ (0x1000 : Nat) ∣ round 0x1800 0x1000 ∧
    roundUpSpec 0x1800 0x1000 = 0x2000 ∧
    round 1 0x1000 = 1 ∧
    roundUpSpec 1 0x1000 = 0x1000 ∧
    allocate_mem HEAP_BASE 1 = (0x69690000, 0x69690001) := by
  refine ⟨by decide, by decide, by decide, by decide, by decide, ?_⟩
  decide

/-- Claim C3 counterexample: with requested sizes `[0, 1, 1]` starting from the
hook's initial cursor, the bases are `[0x69690000, 0x69690000, 0x69690001]`:
they are not strictly increasing, the third base is not 4096-aligned, and the
regions mapped for the second and third requests (each `clampedSize + 4 = 5`
bytes) overlap. -/
theorem C3_counterexample :
    allocBases [0, 1, 1] HEAP_BASE = [0x69690000, 0x69690000, 0x69690001] ∧
    ¬ (allocBases [0, 1, 1] HEAP_BASE).Pairwise (· < ·) ∧
    ¬ (0x1000 : Nat) ∣ 0x69690001 ∧
    0x69690001 < 0x69690000 + mappedSize 1 ∧
    0x69690000 < 0x69690001 + mappedSize 1 := by
  refine ⟨by decide, by decide, by decide, by decide, by decide⟩

/-- Claim C3 (amended): for every sequence of allocation requests from one
allocator-hook instance, the bases are non-decreasing — consecutive bases
differ by exactly the rounded-and-clamped size, so distinct regions can
overlap only in the 4 trailing padding bytes that `addMemoryMap` maps beyond
the cursor advance — and strictly increasing when every requested size is
positive; the first base is the 4096-aligned `0x69690000`, and all bases are
4096-aligned when every requested size is a multiple of 4096; each region's
mapped size is at least `min(requested, 10 MiB)`. -/
theorem C3_heap_invariants (sizes : List Nat) :
    (allocList sizes HEAP_BASE).Pairwise (fun p q => p.1 + clampedSize p.2 ≤ q.1) ∧
    ((∀ s ∈ sizes, 0 < s) →
      (allocBases sizes HEAP_BASE).Pairwise (· < ·)) ∧
    (∀ p ∈ allocList sizes HEAP_BASE, min p.2 MAX_ALLOCATION_SIZE ≤ clampedSize p.2) ∧
    (∀ p ∈ allocList sizes HEAP_BASE, clampedSize p.2 < mappedSize p.2) ∧
    ((0x1000 : Nat) ∣ HEAP_BASE) ∧
    ((∀ s ∈ sizes, (0x1000 : Nat) ∣ s) →
      ∀ p ∈ allocList sizes HEAP_BASE, (0x1000 : Nat) ∣ p.1) := by
  refine ⟨allocList_pairwise sizes HEAP_BASE, ?_, ?_, ?_, by decide, ?_⟩
  · intro hpos
    unfold allocBases
    rw [List.pairwise_map]
    refine (allocList_pairwise sizes HEAP_BASE).imp_of_mem ?_
    intro p q hp _ h
    have hps : 0 < p.2 := hpos p.2 (allocList_snd_mem sizes HEAP_BASE p hp)
    have := clampedSize_pos p.2 hps
    omega
  · intro p _
    exact clampedSize_ge_min p.2
  · intro p _
    unfold mappedSize
    omega
  · intro hdvd
    exact allocList_dvd sizes HEAP_BASE hdvd (by decide)

/-- Claim C3 witness: the amended invariants evaluated on the concrete request
sequence `[0x1000, 1, 0x2000]`, whose sizes are all positive. -/
theorem C3_heap_invariants_witness :
    (allocBases [0x1000, 1, 0x2000] HEAP_BASE).Pairwise (· < ·) :=
  (C3_heap_invariants [0x1000, 1, 0x2000]).2.1 (by decide)

/-! ## Heap state across sessions (claim C9)

`DEFAULT_HOOKS` is a module-level list of hook instances; `defaultHooks`
installs and removes those same instances around every run, and nothing ever
resets `self._heap_addr`.  `runSessions` therefore threads the cursor of an
allocator hook from one emulation session into the next. -/

theorem finalCursor_ge (sizes : List Nat) : ∀ c, c ≤ finalCursor c sizes := by
  induction sizes with
  | nil => intro c; exact Nat.le_refl c
  | cons s rest ih =>
      intro c
      calc c ≤ c + clampedSize s := Nat.le_add_right _ _
        _ ≤ finalCursor (c + clampedSize s) rest := ih _
        _ = finalCursor c (s :: rest) := rfl

theorem allocBases_ge (sizes : List Nat) (c : Nat) : ∀ b ∈ allocBases sizes c, c ≤ b := by
  intro b hb
  unfold allocBases at hb
  rcases List.mem_map.mp hb with ⟨p, hp, rfl⟩
  exact allocList_base_ge sizes c p hp

theorem runSessions_ge (sessions : List (List Nat)) :
    ∀ c, ∀ bs ∈ runSessions c sessions, ∀ b ∈ bs, c ≤ b := by
  induction sessions with
  | nil => intro c bs hbs; simp [runSessions] at hbs
  | cons ses rest ih =>
      intro c bs hbs b hb
      simp only [runSessions, List.mem_cons] at hbs
      rcases hbs with h | h
      · subst h; exact allocBases_ge ses c b hb
      · exact le_trans (finalCursor_ge ses c) (ih (finalCursor c ses) bs h b hb)

/-- Claim C9 counterexample: two consecutive sessions, each allocating one
byte.  Because the allocator hooks are shared module-level instances, the
second session's first allocation returns `0x69690001`, not the sentinel
`0x69690000` the claim requires for every new session. -/
theorem C9_counterexample :
    runSessions HEAP_BASE [[1], [1]] = [[0x69690000], [0x69690001]] ∧
    (0x69690001 : Nat) ≠ 0x69690000 := by
  refine ⟨by decide, by decide⟩

/-- Claim C9 (amended): the allocator hooks are module-level singletons in
`DEFAULT_HOOKS`, shared by every session, so the heap cursor persists across
sessions instead of being per-session.  The first allocation of a session
returns the cursor as left by all earlier sessions; for the first session that
is the fixed sentinel `0x69690000`.  The cursor never decreases, so every base
handed out in any later session is at least the sentinel (hence non-zero). -/
theorem C9_heap_sharing (c s : Nat) (sizes : List Nat) (sessions rest : List (List Nat)) :
    (∀ bs ∈ runSessions c sessions, ∀ b ∈ bs, c ≤ b) ∧
    c ≤ finalCursor c sizes ∧
    (allocBases (s :: sizes) c).head? = some c ∧
    runSessions c ((s :: sizes) :: rest) =
      allocBases (s :: sizes) c :: runSessions (finalCursor c (s :: sizes)) rest := by
  refine ⟨runSessions_ge sessions c, finalCursor_ge sizes c, rfl, rfl⟩

/-- Claim C9 witness: the sharing theorem evaluated at the counterexample's
sessions — the second session's bases all sit at or above the cursor left by
the first session. -/
theorem C9_heap_sharing_witness :
    (0x69690000 : Nat) ≤ 0x69690001 ∧
    (allocBases [1, 2] HEAP_BASE).head? = some HEAP_BASE :=
  ⟨(C9_heap_sharing HEAP_BASE 1 [2] [[1], [1]] []).1 [0x69690001] (by decide)
      0x69690001 (by decide),
    (C9_heap_sharing HEAP_BASE 1 [2] [[1], [1]] []).2.2.1⟩

/-! ## Return-address guard (`ApiMonitor` in `api_hooks.py`)

The mutable emulator is embedded as an explicit state: program counter,
stack pointer and a read-only view of memory (the guard never writes
memory).  Python integers are unbounded, so addresses are `Int`.
`_get_return_vas` derives the return-address set from the static call
graph; the claims quantify over that set `R` directly. -/

structure EmuState where
  pc : Int
  sp : Int
  mem : Int → Int

/-- The `if op.opers:` branch of `_check_return`:
`emu.setStackCounter(emu.getStackCounter() - op.opers[0].imm)` when the
`ret` carries an immediate operand; `none` models a plain `ret`. -/
def adjustImm (s : EmuState) : Option Int → EmuState
  | some imm => { s with sp := s.sp - imm }
  | none => s

/-- `Monitor.getStackValue(emu, offset)`: the pointer-sized word at
`stack counter + offset`. -/
def getStackValue (s : EmuState) (offset : Int) : Int :=
  s.mem (s.sp + offset)

/-- The candidate return address `_check_return` reads:
`self.getStackValue(emu, -4)` after the immediate adjustment. -/
def candidateOf (s : EmuState) (immOper : Option Int) : Int :=
  getStackValue (adjustImm s immOper) (-4)

/-- The offsets `xrange(0, STACK_SEARCH_WINDOW, pointer_size)` that
`_fix_return` scans, with `NUM_ADDRESSES = 4`. -/
def searchOffsets (ps : Int) : List Int := [0, ps, 2 * ps, 3 * ps]

/-- `_fix_return`: scan the window for the first slot holding a member of
the return-address set; on a hit set the program counter to that value and
the stack pointer just past the slot (`esp + offset + pointer_size`);
`none` models the raised `Exception("No valid return address found...")`. -/
def fixReturn (s : EmuState) (R : List Int) (ps : Int) : Option EmuState :=
  match (searchOffsets ps).find? (fun off => decide (getStackValue s off ∈ R)) with
  | some off => some { s with pc := getStackValue s off, sp := s.sp + off + ps }
  | none => none

/-- Outcome of `_check_return`: a normal return carrying the resulting
emulator state, or the raised stack-corruption `Exception` carrying the
state at the moment of the raise (the emulator is mutated in place, so the
immediate adjustment persists). -/
inductive GuardOutcome
  | ok (s : EmuState)
  | corrupted (s : EmuState)

def GuardOutcome.isCorrupted : GuardOutcome → Bool
  | .ok _ => false
  | .corrupted _ => true

def GuardOutcome.spOf : GuardOutcome → Int
  | .ok s => s.sp
  | .corrupted s => s.sp

/-- `ApiMonitor._check_return`, for a `ret` inside a function whose
return-address set is `R`. -/
def checkReturn (s : EmuState) (immOper : Option Int) (R : List Int) (ps : Int) :
    GuardOutcome :=
  if candidateOf s immOper ∈ R then .ok (adjustImm s immOper)
  else
    match fixReturn (adjustImm s immOper) R ps with
    | some s2 => .ok s2
    | none => .corrupted (adjustImm s immOper)

/-- `ApiMonitor.posthook`: only `ret` instructions are inspected, and the
`_check_return` call sits inside `try: ... except Exception as e:
self.d(str(e))` — every exception is caught and logged.  A `none` result
would model an exception escaping to the driver and aborting the run; the
implementation always returns `some` state, so the run continues. -/
def posthook (s : EmuState) (mnem : String) (immOper : Option Int) (R : List Int)
    (ps : Int) : Option EmuState :=
  if mnem = "ret" then
    match checkReturn s immOper R ps with
    | .ok s2 => some s2
    | .corrupted s2 => some s2
  else some s

/-- Modelled from the spec: the external emulation engine's execution of
`ret imm16` on a 32-bit target (pointer size 4, matching the literal `-4`
offset in `_check_return`) — pop the word at the top of stack into the
program counter, then add the immediate to the stack pointer.  The guard's
`posthook` observes the state after this step. -/
def retImmStep (s : EmuState) (imm : Int) : EmuState :=
  { s with pc := s.mem s.sp, sp := s.sp + 4 + imm }

/-- `_fix_return` takes the first matching slot of the window: if slot `k`
(of `0, 1, 2, 3`) holds a member of `R` and no earlier slot does, the scan
stops at offset `k * pointer_size`. -/
theorem find_first_slot (s : EmuState) (R : List Int) (ps : Int) (k : Nat)
    (hk : k < 4) (hin : getStackValue s ((k : Int) * ps) ∈ R)
    (hfirst : ∀ j : Nat, j < k → getStackValue s ((j : Int) * ps) ∉ R) :
    (searchOffsets ps).find? (fun off => decide (getStackValue s off ∈ R)) =
      some ((k : Int) * ps) := by
  unfold searchOffsets
  interval_cases k
  · rw [List.find?_cons_of_pos _ (by simpa using hin)]
    norm_num
  · rw [List.find?_cons_of_neg _ (by simpa using hfirst 0 (by norm_num)),
      List.find?_cons_of_pos _ (by simpa using hin)]
    norm_num
  · rw [List.find?_cons_of_neg _ (by simpa using hfirst 0 (by norm_num)),
      List.find?_cons_of_neg _ (by simpa using hfirst 1 (by norm_num)),
      List.find?_cons_of_pos _ (by simpa using hin)]
    norm_num
  · rw [List.find?_cons_of_neg _ (by simpa using hfirst 0 (by norm_num)),
      List.find?_cons_of_neg _ (by simpa using hfirst 1 (by norm_num)),
      List.find?_cons_of_neg _ (by simpa using hfirst 2 (by norm_num)),
      List.find?_cons_of_pos _ (by simpa using hin)]
    norm_num

def exMemValid : Int → Int := fun a => if a = 88 then 0x401000 else 0

/-- A state at a `ret 8` whose (post-adjustment) candidate is valid. -/
def exStateValid : EmuState := { pc := 0x401000, sp := 100, mem := exMemValid }

/-- Claim C1 counterexample: at a `ret 8` (immediate stack-adjustment
operand) whose candidate return address is a member of `R`, the claim says
no state is modified; but `_check_return` first runs
`setStackCounter(sp - 8)` and never restores it, leaving the stack pointer
at 92 instead of 100. -/
theorem C1_counterexample :
    candidateOf exStateValid (some 8) = 0x401000 ∧
    (0x401000 : Int) ∈ [(0x401000 : Int)] ∧
    GuardOutcome.spOf (checkReturn exStateValid (some 8) [0x401000] 4) = 92 ∧
    exStateValid.sp = 100 ∧ (92 : Int) ≠ 100 := by
  refine ⟨by decide, by decide, by decide, by decide, by decide⟩

/-- Claim C1 (amended): at a `ret` inside a function with return-address
set `R`, if the candidate (read 4 bytes below the possibly imm-adjusted
stack pointer) is a member of `R`, no repair occurs — the program counter
and memory are untouched and the stack pointer retains only the immediate
adjustment (unchanged for a plain `ret`); if it is not a member, the guard
scans the 4 pointer-sized slots at offsets `0, ps, 2ps, 3ps` from the
current stack pointer in order, and for the first slot holding a member of
`R` it sets the program counter to that value and the stack pointer just
past that slot (slot offset + pointer width). -/
theorem C1_return_guard (s : EmuState) (immOper : Option Int) (R : List Int)
    (ps : Int) (k : Nat) :
    (candidateOf s immOper ∈ R →
      checkReturn s immOper R ps = .ok (adjustImm s immOper) ∧
      (adjustImm s immOper).pc = s.pc ∧
      (adjustImm s immOper).mem = s.mem ∧
      (adjustImm s immOper).sp = s.sp - immOper.getD 0) ∧
    (candidateOf s immOper ∉ R → k < 4 →
      getStackValue (adjustImm s immOper) ((k : Int) * ps) ∈ R →
      (∀ j : Nat, j < k → getStackValue (adjustImm s immOper) ((j : Int) * ps) ∉ R) →
      checkReturn s immOper R ps =
        .ok { pc := getStackValue (adjustImm s immOper) ((k : Int) * ps),
              sp := (adjustImm s immOper).sp + (k : Int) * ps + ps,
              mem := s.mem }) := by
  constructor
  · intro hmem
    refine ⟨?_, ?_, ?_, ?_⟩
    · unfold checkReturn
      rw [if_pos hmem]
    · cases immOper <;> rfl
    · cases immOper <;> rfl
    · cases immOper <;> simp [adjustImm]
  · intro hcand hk hin hfirst
    have hmemeq : (adjustImm s immOper).mem = s.mem := by cases immOper <;> rfl
    rw [← hmemeq]
    have hfind := find_first_slot (adjustImm s immOper) R ps k hk hin hfirst
    unfold checkReturn fixReturn
    rw [if_neg hcand, hfind]

def exMemRepair : Int → Int := fun a => if a = 104 then 0x402000 else 0

/-- A state at a plain `ret` whose candidate is invalid but whose second
window slot (offset 4) holds a valid return address. -/
def exStateRepair : EmuState := { pc := 7, sp := 100, mem := exMemRepair }

/-- Claim C1 witness: both branches of the amended guard behaviour at
concrete states — a valid `ret 8` return and a repair that lands on the
second window slot. -/
theorem C1_return_guard_witness :
    checkReturn exStateValid (some 8) [0x401000] 4 = .ok (adjustImm exStateValid (some 8)) ∧
    checkReturn exStateRepair none [0x402000] 4 =
      .ok { pc := getStackValue (adjustImm exStateRepair none) ((1 : Int) * 4),
            sp := (adjustImm exStateRepair none).sp + (1 : Int) * 4 + 4,
            mem := exStateRepair.mem } :=
  ⟨((C1_return_guard exStateValid (some 8) [0x401000] 4 0).1 (by decide)).1,
    (C1_return_guard exStateRepair none [0x402000] 4 1).2 (by decide) (by decide)
      (by decide) (by decide)⟩

def exMemZero : Int → Int := fun _ => 0

/-- A state at a plain `ret` with no valid address anywhere in the window. -/
def exStateCorrupt : EmuState := { pc := 5, sp := 100, mem := exMemZero }

/-- Claim C4 counterexample: when no window slot holds a member of `R`,
`_fix_return` raises, but `posthook` catches and logs every exception: the
run is not aborted — `posthook` returns the (unchanged) state and emulation
continues. -/
theorem C4_counterexample :
    GuardOutcome.isCorrupted (checkReturn exStateCorrupt none [0x401000] 4) = true ∧
    posthook exStateCorrupt "ret" none [0x401000] 4 = some exStateCorrupt := by
  refine ⟨by decide, rfl⟩

/-- Claim C4 (amended): when the guard finds no member of the
return-address set in its 4-slot window, `_check_return` does signal stack
corruption by raising an exception, but `posthook` catches and logs it, so
the current run is not aborted: emulation continues from the state as
mutated so far (only the `ret imm16` stack adjustment, if any).  The run's
contexts are returned regardless, since the run never ends here. -/
theorem C4_corruption_caught (s : EmuState) (immOper : Option Int) (R : List Int)
    (ps : Int) (hcand : candidateOf s immOper ∉ R)
    (hfix : fixReturn (adjustImm s immOper) R ps = none) :
    checkReturn s immOper R ps = .corrupted (adjustImm s immOper) ∧
    posthook s "ret" immOper R ps = some (adjustImm s immOper) := by
  have hchk : checkReturn s immOper R ps = .corrupted (adjustImm s immOper) := by
    unfold checkReturn
    rw [if_neg hcand, hfix]
  refine ⟨hchk, ?_⟩
  unfold posthook
  rw [if_pos rfl, hchk]

/-- Claim C4 witness: the catch-and-continue behaviour at the concrete
corrupted state. -/
theorem C4_corruption_caught_witness :
    checkReturn exStateCorrupt none [0x401000] 4 = .corrupted (adjustImm exStateCorrupt none) ∧
    posthook exStateCorrupt "ret" none [0x401000] 4 = some (adjustImm exStateCorrupt none) :=
  C4_corruption_caught exStateCorrupt none [0x401000] 4 (by decide) rfl

/-- Claim C7 (confirmed): on a `ret` with an immediate operand, observed by
`posthook` after the instruction executed, the guard first applies the
adjustment `setStackCounter(sp - imm)` and then reads the candidate at
offset `-4`; for any state produced by executing `ret imm16` this lands
exactly on the word that was on top of the stack at the `ret` — the true
return address, the value the instruction popped into the program counter. -/
theorem C7_ret_imm_adjustment (s : EmuState) (imm : Int) :
    (adjustImm (retImmStep s imm) (some imm)).sp = (retImmStep s imm).sp - imm ∧
    candidateOf (retImmStep s imm) (some imm) = s.mem s.sp ∧
    (retImmStep s imm).pc = s.mem s.sp := by
  refine ⟨rfl, ?_, rfl⟩
  simp only [candidateOf, getStackValue, adjustImm, retImmStep]
  have h : s.sp + 4 + imm - imm + (-4) = s.sp := by ring
  rw [h]

/-! ## API hooks and their dispatch (claims C5 and C10)

Each `hook` method is embedded as a function from the allocator cursor, the
call name and the decoded argument list to an outcome.  Python control flow
maps to constructors: returning `True` after an effect is `handled`/`alloc`,
`raise UnsupportedFunction()` is `unsupported`, `raise StopEmulation()` is
`stop`, falling off the end of the method (returning `None`) is
`fallthrough`, and an argument-unpacking error is `error`. -/

inductive HookStep
  | handled
  | alloc (size va newCursor : Nat)
  | unsupported
  | stop
  | fallthrough
  | error
deriving DecidableEq

/-- `GetProcessHeapHook.hook`: handles `kernel32.GetProcessHeap` (returns 0),
raises `UnsupportedFunction` otherwise. -/
def getProcessHeapHook (cursor : Nat) (callname : String) (argv : List Nat) : HookStep :=
  if callname = "kernel32.GetProcessHeap" then .handled else .unsupported

/-- `RtlAllocateHeapHook.hook`: on `ntdll.RtlAllocateHeap` unpacks
`hheap, flags, size = argv` and allocates `size` (the third argument);
raises `UnsupportedFunction` for any other name. -/
def rtlAllocateHeapHook (cursor : Nat) (callname : String) (argv : List Nat) : HookStep :=
  if callname = "ntdll.RtlAllocateHeap" then
    match argv with
    | [_hheap, _flags, size] => .alloc size (allocate_mem cursor size).1 (allocate_mem cursor size).2
    | _ => .error
  else .unsupported

/-- `AllocateHeap.hook`: on `kernel32.LocalAlloc`, `kernel32.GlobalAlloc` or
`kernel32.VirtualAlloc` allocates `argv[0]`; raises `UnsupportedFunction`
otherwise. -/
def allocateHeapHook (cursor : Nat) (callname : String) (argv : List Nat) : HookStep :=
  if callname = "kernel32.LocalAlloc" ∨ callname = "kernel32.GlobalAlloc" ∨
      callname = "kernel32.VirtualAlloc" then
    match argv with
    | size :: _ => .alloc size (allocate_mem cursor size).1 (allocate_mem cursor size).2
    | [] => .error
  else .unsupported

/-- `MallocHeap.hook`: on `msvcrt.malloc` or `msvcrt.calloc` allocates
`argv[0]`; raises `UnsupportedFunction` otherwise. -/
def mallocHeapHook (cursor : Nat) (callname : String) (argv : List Nat) : HookStep :=
  if callname = "msvcrt.malloc" ∨ callname = "msvcrt.calloc" then
    match argv with
    | size :: _ => .alloc size (allocate_mem cursor size).1 (allocate_mem cursor size).2
    | [] => .error
  else .unsupported

/-- `MemcpyHook.hook`: handles `msvcrt.memcpy` (the memory effect is not
needed by any claim); raises `UnsupportedFunction` otherwise. -/
def memcpyHook (cursor : Nat) (callname : String) (argv : List Nat) : HookStep :=
  if callname = "msvcrt.memcpy" then
    match argv with
    | [_dst, _src, _count] => .handled
    | _ => .error
  else .unsupported

/-- `ExitProcessHook.hook`: raises `StopEmulation` on `kernel32.ExitProcess`;
for every other name it falls off the end of the method and returns `None` —
it does NOT raise `UnsupportedFunction` like its siblings. -/
def exitProcessHook (cursor : Nat) (callname : String) (argv : List Nat) : HookStep :=
  if callname = "kernel32.ExitProcess" then .stop else .fallthrough

/-- `DEFAULT_HOOKS`, in source order. -/
def DEFAULT_HOOKS : List (Nat → String → List Nat → HookStep) :=
  [getProcessHeapHook, rtlAllocateHeapHook, allocateHeapHook, mallocHeapHook,
    exitProcessHook, memcpyHook]

/-- The fully qualified names some hook of `DEFAULT_HOOKS` recognizes. -/
def recognizedNames : List String :=
  ["kernel32.GetProcessHeap", "ntdll.RtlAllocateHeap", "kernel32.LocalAlloc",
    "kernel32.GlobalAlloc", "kernel32.VirtualAlloc", "msvcrt.malloc",
    "msvcrt.calloc", "kernel32.ExitProcess", "msvcrt.memcpy"]

inductive DispatchResult
  | handledBy (step : HookStep)
  | stopped
  | errored
  | unhandled
deriving DecidableEq

/-- Modelled from the spec: the hook dispatcher itself lives in the external
`viv_utils` driver, not in this repository.  Per the spec, hooks are tried
in a fixed order; a hook that signals "unsupported" (and likewise one that
returns no result, as `ExitProcessHook` does for foreign names — the driver
checks the returned value for truthiness) makes the dispatcher proceed to
the next hook; a hook that consumes the call makes dispatch return handled;
a termination signal stops the run; if the hooks are exhausted, dispatch
signals "unhandled" to its caller. -/
def dispatch (cursor : Nat) (callname : String) (argv : List Nat) :
    List (Nat → String → List Nat → HookStep) → DispatchResult
  | [] => .unhandled
  | h :: rest =>
    match h cursor callname argv with
    | .handled => .handledBy .handled
    | .alloc size va newCursor => .handledBy (.alloc size va newCursor)
    | .stop => .stopped
    | .error => .errored
    | .unsupported => dispatch cursor callname argv rest
    | .fallthrough => dispatch cursor callname argv rest

/-- Claim C5 counterexample: for the unrecognized name `"foo.bar"`, five of
the six default hooks raise `UnsupportedFunction`, but `ExitProcessHook`
instead returns `None` (falls through) — it does not signal "unsupported"
as the claim states every hook does. -/
theorem C5_counterexample :
    exitProcessHook 0 "foo.bar" [] = .fallthrough ∧
    HookStep.fallthrough ≠ HookStep.unsupported ∧
    DEFAULT_HOOKS.map (fun h => h 0 "foo.bar" []) =
      [.unsupported, .unsupported, .unsupported, .unsupported, .fallthrough,
        .unsupported] := by
  refine ⟨by decide, by decide, by decide⟩

/-- Claim C5 (amended): for a call name no hook recognizes, every default
hook except `ExitProcessHook` signals unsupported, and `ExitProcessHook`
returns no result (`None`) — either way no hook consumes the call, the
dispatcher proceeds hook to hook, and dispatch signals "unhandled" to its
caller rather than fabricating a success. -/
theorem C5_unhandled_dispatch (cursor : Nat) (callname : String) (argv : List Nat)
    (h : callname ∉ recognizedNames) :
    (∀ hk ∈ DEFAULT_HOOKS, hk cursor callname argv = .unsupported ∨
      hk cursor callname argv = .fallthrough) ∧
    dispatch cursor callname argv DEFAULT_HOOKS = .unhandled := by
  simp only [recognizedNames, List.mem_cons, List.mem_singleton, not_or] at h
  obtain ⟨h1, h2, h3, h4, h5, h6, h7, h8, h9, -⟩ := h
  constructor
  · intro hk hmem
    simp only [DEFAULT_HOOKS, List.mem_cons, List.not_mem_nil, or_false] at hmem
    rcases hmem with rfl | rfl | rfl | rfl | rfl | rfl
    · exact Or.inl (by simp [getProcessHeapHook, h1])
    · exact Or.inl (by simp [rtlAllocateHeapHook, h2])
    · exact Or.inl (by simp [allocateHeapHook, h3, h4, h5])
    · exact Or.inl (by simp [mallocHeapHook, h6, h7])
    · exact Or.inr (by simp [exitProcessHook, h8])
    · exact Or.inl (by simp [memcpyHook, h9])
  · simp [DEFAULT_HOOKS, dispatch, getProcessHeapHook, rtlAllocateHeapHook,
      allocateHeapHook, mallocHeapHook, exitProcessHook, memcpyHook,
      h1, h2, h3, h4, h5, h6, h7, h8, h9]

/-- Claim C5 witness: dispatch of the concrete unrecognized call
`"foo.bar"` signals "unhandled". -/
theorem C5_unhandled_dispatch_witness :
    dispatch 0 "foo.bar" [] DEFAULT_HOOKS = .unhandled :=
  (C5_unhandled_dispatch 0 "foo.bar" [] (by decide)).2

/-- Claim C10 (confirmed): through the full dispatch order, the allocation
hooks pass `argv[0]` to `_allocate_mem` for `kernel32.LocalAlloc`,
`kernel32.GlobalAlloc`, `kernel32.VirtualAlloc`, `msvcrt.malloc` and
`msvcrt.calloc` — whatever that first argument means in the real API — and
`argv[2]` for `ntdll.RtlAllocateHeap` (via `hheap, flags, size = argv`).
The returned base is the prior cursor and the cursor advances by the
rounded-and-clamped size. -/
theorem C10_alloc_sizes (cursor s h f : Nat) (rest : List Nat) :
    dispatch cursor "kernel32.LocalAlloc" (s :: rest) DEFAULT_HOOKS =
      .handledBy (.alloc s cursor (cursor + clampedSize s)) ∧
    dispatch cursor "kernel32.GlobalAlloc" (s :: rest) DEFAULT_HOOKS =
      .handledBy (.alloc s cursor (cursor + clampedSize s)) ∧
    dispatch cursor "kernel32.VirtualAlloc" (s :: rest) DEFAULT_HOOKS =
      .handledBy (.alloc s cursor (cursor + clampedSize s)) ∧
    dispatch cursor "msvcrt.malloc" (s :: rest) DEFAULT_HOOKS =
      .handledBy (.alloc s cursor (cursor + clampedSize s)) ∧
    dispatch cursor "msvcrt.calloc" (s :: rest) DEFAULT_HOOKS =
      .handledBy (.alloc s cursor (cursor + clampedSize s)) ∧
    dispatch cursor "ntdll.RtlAllocateHeap" [h, f, s] DEFAULT_HOOKS =
      .handledBy (.alloc s cursor (cursor + clampedSize s)) := by
  refine ⟨rfl, rfl, rfl, rfl, rfl, rfl⟩

/-! ## Call-context collector (`function_argument_getter.py`, claims C6 and C8)

`InstructionFunctionIndex` is embedded as a partial map from instruction
addresses to containing-function addresses (`none` models the `KeyError`
for an address outside any recognized function).  Captured contexts are
abstracted as values; what one caller's run produces is a parameter
`runOf`, since the instruction-level emulation itself is external. -/

/-- What `self.driver.runFunction(...)` does for one caller: either the run
finishes (normally or via a handled `StopEmulation`) and the monitor holds
the captured contexts, or an exception is raised during the run. -/
inductive RunOutcome
  | completed (contexts : List Nat)
  | raised
deriving DecidableEq

/-- The contexts a finished run contributes (a raised run contributes
nothing — its monitor is never drained). -/
def contextsOf : RunOutcome → List Nat
  | .completed cs => cs
  | .raised => []

/-- `FunctionArgumentGetter.get_contexts_via_monitor`: the body is
`try: ... runFunction ... contexts = monitor.get_contexts() finally:
remove_monitor` — there is NO `except` clause, so an exception raised
during the run propagates to the caller (after the `finally` teardown).
`Except.error` models that propagation. -/
def get_contexts_via_monitor (run : RunOutcome) : Except Unit (List Nat) :=
  match run with
  | .completed cs => .ok cs
  | .raised => .error ()

/-- `FunctionArgumentGetter.get_caller_vas`: map every caller instruction
address through the function index, skipping (`continue`) the ones that
raise `KeyError`, and collect the containing functions into a set —
embedded as an order-preserving duplicate-free list. -/
def get_caller_vas_aux (index : Nat → Option Nat) (acc : List Nat) :
    List Nat → List Nat
  | [] => acc
  | va :: rest =>
    match index va with
    | none => get_caller_vas_aux index acc rest
    | some f =>
      get_caller_vas_aux index (if f ∈ acc then acc else acc ++ [f]) rest

def get_caller_vas (index : Nat → Option Nat) (callers : List Nat) : List Nat :=
  get_caller_vas_aux index [] callers

/-- The `for caller_va in self.get_caller_vas(...)` loop of
`get_all_function_contexts`: `all_contexts.extend(...)` per caller; an
exception from `get_contexts_via_monitor` propagates and the loop (and the
whole collection) is abandoned. -/
def collectLoop (runOf : Nat → RunOutcome) : List Nat → Except Unit (List Nat)
  | [] => .ok []
  | f :: rest =>
    match get_contexts_via_monitor (runOf f) with
    | .error e => .error e
    | .ok cs =>
      match collectLoop runOf rest with
      | .error e => .error e
      | .ok css => .ok (cs ++ css)

/-- `FunctionArgumentGetter.get_all_function_contexts`. -/
def get_all_function_contexts (index : Nat → Option Nat) (callers : List Nat)
    (runOf : Nat → RunOutcome) : Except Unit (List Nat) :=
  collectLoop runOf (get_caller_vas index callers)

/-! ### Collector lemmas -/

theorem get_caller_vas_aux_mem (index : Nat → Option Nat) (callers : List Nat) :
    ∀ acc x, (x ∈ get_caller_vas_aux index acc callers ↔
      x ∈ acc ∨ ∃ va ∈ callers, index va = some x) := by
  induction callers with
  | nil => intro acc x; simp [get_caller_vas_aux]
  | cons va rest ih =>
      intro acc x
      simp only [get_caller_vas_aux]
      cases hva : index va with
      | none =>
          rw [ih acc x]
          constructor
          · rintro (h | ⟨w, hw, hwx⟩)
            · exact Or.inl h
            · exact Or.inr ⟨w, List.mem_cons_of_mem va hw, hwx⟩
          · rintro (h | ⟨w, hw, hwx⟩)
            · exact Or.inl h
            · rcases List.mem_cons.mp hw with rfl | hw2
              · rw [hva] at hwx; cases hwx
              · exact Or.inr ⟨w, hw2, hwx⟩
      | some fv =>
          rw [ih _ x]
          by_cases hin : fv ∈ acc
          · rw [if_pos hin]
            constructor
            · rintro (h | ⟨w, hw, hwx⟩)
              · exact Or.inl h
              · exact Or.inr ⟨w, List.mem_cons_of_mem va hw, hwx⟩
            · rintro (h | ⟨w, hw, hwx⟩)
              · exact Or.inl h
              · rcases List.mem_cons.mp hw with rfl | hw2
                · rw [hva] at hwx
                  cases hwx
                  exact Or.inl hin
                · exact Or.inr ⟨w, hw2, hwx⟩
          · rw [if_neg hin]
            constructor
            · rintro (h | ⟨w, hw, hwx⟩)
              · rcases List.mem_append.mp h with h2 | h2
                · exact Or.inl h2
                · rcases List.mem_singleton.mp h2 with rfl
                  exact Or.inr ⟨va, List.mem_cons_self va rest, hva⟩
              · exact Or.inr ⟨w, List.mem_cons_of_mem va hw, hwx⟩
            · rintro (h | ⟨w, hw, hwx⟩)
              · exact Or.inl (List.mem_append.mpr (Or.inl h))
              · rcases List.mem_cons.mp hw with rfl | hw2
                · rw [hva] at hwx
                  cases hwx
                  exact Or.inl (List.mem_append.mpr (Or.inr (List.mem_singleton.mpr rfl)))
                · exact Or.inr ⟨w, hw2, hwx⟩

theorem get_caller_vas_aux_nodup (index : Nat → Option Nat) (callers : List Nat) :
    ∀ acc, acc.Nodup → (get_caller_vas_aux index acc callers).Nodup := by
  induction callers with
  | nil => intro acc h; exact h
  | cons va rest ih =>
      intro acc hacc
      simp only [get_caller_vas_aux]
      cases index va with
      | none => exact ih acc hacc
      | some fv =>
          dsimp only
          by_cases hin : fv ∈ acc
          · rw [if_pos hin]; exact ih acc hacc
          · rw [if_neg hin]
            refine ih _ ?_
            rw [List.nodup_append]
            exact ⟨hacc, List.nodup_singleton fv,
              fun a ha hb => hin (by rwa [List.mem_singleton.mp hb] at ha)⟩

theorem collectLoop_ok (runOf : Nat → RunOutcome) :
    ∀ l : List Nat, (∀ f ∈ l, runOf f ≠ .raised) →
      collectLoop runOf l = .ok ((l.map fun f => contextsOf (runOf f)).flatten) := by
  intro l
  induction l with
  | nil => intro _; rfl
  | cons f rest ih =>
      intro h
      have hf : runOf f ≠ .raised := h f (List.mem_cons_self f rest)
      have hrest := ih fun x hx => h x (List.mem_cons_of_mem f hx)
      simp only [collectLoop]
      cases hr : runOf f with
      | raised => exact absurd hr hf
      | completed cs =>
          simp only [get_contexts_via_monitor]
          rw [hrest]
          simp [contextsOf, hr]

theorem collectLoop_raised (runOf : Nat → RunOutcome) :
    ∀ l : List Nat, (∃ f ∈ l, runOf f = .raised) →
      collectLoop runOf l = .error () := by
  intro l
  induction l with
  | nil => rintro ⟨f, hf, -⟩; simp at hf
  | cons g rest ih =>
      rintro ⟨f, hf, hraised⟩
      simp only [collectLoop]
      cases hr : runOf g with
      | raised => rfl
      | completed cs =>
          simp only [get_contexts_via_monitor]
          have hex : ∃ x ∈ rest, runOf x = .raised := by
            rcases List.mem_cons.mp hf with rfl | h2
            · rw [hr] at hraised; cases hraised
            · exact ⟨f, h2, hraised⟩
          rw [ih hex]

/-! ### Collector claims -/

def exIndex : Nat → Option Nat := fun va =>
  if va = 10 then some 1 else if va = 20 then some 2 else none

def exRunsRaise : Nat → RunOutcome := fun f =>
  if f = 1 then .raised else .completed [99]

/-- Claim C6 counterexample: two resolvable callers (functions 1 and 2);
function 1's run raises.  `get_contexts_via_monitor` has no `except`
clause, so the exception propagates: the whole collection returns the
error, even though function 2's run would have captured context 99 — the
failure was not caught at the run boundary and did abort the remaining
callers. -/
theorem C6_counterexample :
    get_all_function_contexts exIndex [10, 20] exRunsRaise = .error () ∧
    exRunsRaise 2 = .completed [99] := by
  refine ⟨rfl, rfl⟩

/-- Claim C6 (amended): an unresolvable caller is caught (skipped) inside
`get_caller_vas` and does not disturb collection, and when every caller's
run completes the collection returns all captured contexts in caller order;
but an exception raised during a caller's run is NOT caught at the run
boundary — `get_contexts_via_monitor` only has a `finally` — so it
propagates out of the caller loop and the whole collection fails, dropping
the contexts of completed and remaining callers alike. -/
theorem C6_run_failure_propagates (index : Nat → Option Nat) (callers : List Nat)
    (runOf : Nat → RunOutcome) :
    ((∀ f ∈ get_caller_vas index callers, runOf f ≠ .raised) →
      get_all_function_contexts index callers runOf =
        .ok (((get_caller_vas index callers).map fun f => contextsOf (runOf f)).flatten)) ∧
    ((∃ f ∈ get_caller_vas index callers, runOf f = .raised) →
      get_all_function_contexts index callers runOf = .error ()) ∧
    (∀ va, index va = none →
      get_all_function_contexts index (va :: callers) runOf =
        get_all_function_contexts index callers runOf) := by
  refine ⟨collectLoop_ok runOf _, collectLoop_raised runOf _, ?_⟩
  intro va hva
  unfold get_all_function_contexts get_caller_vas
  simp only [get_caller_vas_aux, hva]

def exRunsOk : Nat → RunOutcome := fun f =>
  if f = 1 then .completed [7] else .completed [8, 9]

/-- Claim C6 witness: with both runs completing, the collection returns the
concatenated contexts of the two callers. -/
theorem C6_run_failure_propagates_witness :
    get_all_function_contexts exIndex [10, 20] exRunsOk = .ok [7, 8, 9] := by
  have h := (C6_run_failure_propagates exIndex [10, 20] exRunsOk).1 (by decide)
  rw [h]
  rfl

/-- Claim C8 (confirmed): `get_caller_vas` maps every call-site address to
its containing function, skips the unmappable ones, and deduplicates by
containing function: the resulting worklist is duplicate-free, contains
exactly the functions some resolvable call site maps to, and lists each
such function exactly once — so `get_all_function_contexts` emulates each
distinct caller function exactly once even when it contains several call
sites of the target. -/
theorem C8_caller_dedup (index : Nat → Option Nat) (callers : List Nat) :
    (get_caller_vas index callers).Nodup ∧
    (∀ f, f ∈ get_caller_vas index callers ↔ ∃ va ∈ callers, index va = some f) ∧
    (∀ f va, va ∈ callers → index va = some f →
      (get_caller_vas index callers).count f = 1) := by
  have hnodup := get_caller_vas_aux_nodup index callers [] List.nodup_nil
  have hmem : ∀ x, x ∈ get_caller_vas index callers ↔
      ∃ va ∈ callers, index va = some x := by
    intro x
    rw [get_caller_vas, get_caller_vas_aux_mem index callers [] x]
    simp
  refine ⟨hnodup, hmem, ?_⟩
  intro f va hva hfva
  exact List.count_eq_one_of_mem hnodup ((hmem f).mpr ⟨va, hva, hfva⟩)

def exIndexC8 : Nat → Option Nat := fun va =>
  if va = 10 then some 1
  else if va = 20 then some 2
  else if va = 30 then some 2
  else none

/-- Claim C8 witness: caller function 1 has one call site, caller function
2 has two call sites (20 and 30), and site 40 is unmappable: the worklist
is duplicate-free and lists function 2 exactly once. -/
theorem C8_caller_dedup_witness :
    (get_caller_vas exIndexC8 [10, 20, 30, 40]).Nodup ∧
    (get_caller_vas exIndexC8 [10, 20, 30, 40]).count 2 = 1 :=
  ⟨(C8_caller_dedup exIndexC8 [10, 20, 30, 40]).1,
    (C8_caller_dedup exIndexC8 [10, 20, 30, 40]).2.2 2 20 (by decide) (by decide)⟩

end Floss
